import Mathlib

/-!
Shallow embedding of the flux TCP reverse proxy (Rust) gossip/membership and
backend-pool subsystems, verified against its natural-language specification.

Sources embedded here:
  - src/gossip/messages.rs   (wire data model, bincode sizes, trim_to_fit)
  - src/gossip/member_list.rs (MemberList and its operations)
  - src/gossip/layer.rs      (process_member_updates)
  - src/backend/backend.rs, src/backend/health.rs, src/backend/pool.rs
  - src/connection_pool/mod.rs (is_connection_alive)

Modelling conventions:
  - Rust Instant / SystemTime values become Nat timestamps; every operation
    that calls Instant::now() in the source takes the current time as an
    explicit argument.  Instant::duration_since / elapsed become truncated
    Nat subtraction (a Rust Instant difference is never negative on the
    paths modelled here).
  - u64 / u32 counters (incarnation, consecutive_failures, ...) are modelled
    as Nat.  The source increments them by 1; an overflow would panic in the
    source (debug) long before any behaviour modelled here wraps, so no
    explicit `% 2 ^ 64` is inserted.
  - HashMap<K, V> is modelled as an association list with first-match
    lookup/update; the operations used by the source (get, get_mut, insert,
    retain) preserve key uniqueness, and no modelled claim depends on the
    iteration order of a HashMap.
  - The time-seeded shuffle of member_list.rs is embedded exactly (the LCG
    and the Fisher-Yates loop), with the nanosecond seed passed in as an
    argument.
  - SocketAddr keeps only what the claims observe: equality, and the bincode
    encoded size of each address family (10 bytes for V4, 22 for V6); the ip
    octets are collapsed into a single Nat.
-/

namespace Flux

/-- Model of std::net::SocketAddr: the ip octets are collapsed into one Nat
since only equality and the per-family bincode size are observable here. -/
inductive SocketAddr where
  | v4 (ip : Nat) (port : Nat)
  | v6 (ip : Nat) (port : Nat)
deriving DecidableEq, Repr, Inhabited

/-- MemberId(pub String) from src/gossip/messages.rs. -/
structure MemberId where
  raw : String
deriving DecidableEq, Repr, Inhabited

/-- MemberState from src/gossip/messages.rs. -/
inductive MemberState where
  | Alive
  | Suspect
  | Dead
deriving DecidableEq, Repr, Inhabited

/-- Member from src/gossip/messages.rs. -/
structure Member where
  id : MemberId
  addr : SocketAddr
  state : MemberState
  incarnation : Nat
deriving DecidableEq, Repr, Inhabited

/-- MemberUpdate from src/gossip/messages.rs. -/
structure MemberUpdate where
  member_id : MemberId
  addr : SocketAddr
  state : MemberState
  incarnation : Nat
deriving DecidableEq, Repr, Inhabited

/-- BackendUpdate from src/gossip/messages.rs. -/
structure BackendUpdate where
  backend_addr : SocketAddr
  is_healthy : Bool
  from_member : MemberId
  timestamp : Nat
deriving DecidableEq, Repr, Inhabited

/-- MemberInfo from src/gossip/member_list.rs (Instant fields become Nat). -/
structure MemberInfo where
  member : Member
  last_seen : Nat
  suspect_at : Option Nat
deriving DecidableEq, Repr, Inhabited

/-- MemberInfo::new: fresh entry, last_seen = Instant::now(), no suspicion. -/
def MemberInfo.new (m : Member) (now : Nat) : MemberInfo :=
  { member := m, last_seen := now, suspect_at := none }

/-- First-match lookup in an association list (HashMap::get). -/
def mapGet (k : MemberId) : List (MemberId × MemberInfo) → Option MemberInfo
  | [] => none
  | (k1, v) :: rest => if k1 = k then some v else mapGet k rest

/-- First-match in-place update (HashMap::get_mut followed by mutation);
identity when the key is absent, matching the if-let in the source. -/
def mapSet (k : MemberId) (f : MemberInfo → MemberInfo) :
    List (MemberId × MemberInfo) → List (MemberId × MemberInfo)
  | [] => []
  | (k1, v) :: rest =>
      if k1 = k then (k1, f v) :: rest else (k1, v) :: mapSet k f rest

/-- HashMap::insert: replaces the first binding of the key, or appends. -/
def mapInsert (k : MemberId) (v : MemberInfo) :
    List (MemberId × MemberInfo) → List (MemberId × MemberInfo)
  | [] => [(k, v)]
  | (k1, v1) :: rest =>
      if k1 = k then (k, v) :: rest else (k1, v1) :: mapInsert k v rest

/-- Write-only index map of member_list.rs, same shape over Nat values. -/
def mapInsertNat (k : MemberId) (v : Nat) :
    List (MemberId × Nat) → List (MemberId × Nat)
  | [] => [(k, v)]
  | (k1, v1) :: rest =>
      if k1 = k then (k, v) :: rest else (k1, v1) :: mapInsertNat k v rest

/-- simple_rand from src/gossip/member_list.rs: one LCG step on a u64 seed,
returning the new seed and the output (seed >> 33) xor seed. -/
def simple_rand (seed : Nat) : Nat × Nat :=
  let seed1 := (seed * 6364136223846793005 + 1) % (2 ^ 64)
  (seed1, (seed1 >>> 33) ^^^ seed1)

/-- Swap of two positions of a list (slice::swap); identity out of bounds
(the source never calls it out of bounds). -/
def listSwap {α : Type} (v : List α) (i j : Nat) : List α :=
  match v[i]?, v[j]? with
  | some a, some b => (v.set i b).set j a
  | _, _ => v

/-- Inner Fisher-Yates loop of shuffle: applies the swaps for positions
i, i-1, ..., 1, threading the LCG seed exactly as the source does. -/
def shuffleFrom {α : Type} (v : List α) (seed : Nat) : Nat → List α
  | 0 => v
  | Nat.succ k =>
      let p := simple_rand seed
      let j := p.2 % (k + 2)
      shuffleFrom (listSwap v (k + 1) j) p.1 k

/-- shuffle from src/gossip/member_list.rs, seeded by the wall clock in
nanoseconds (passed in as an argument, truncated to u64 as in the source). -/
def shuffle {α : Type} (v : List α) (seedNanos : Nat) : List α :=
  shuffleFrom v (seedNanos % (2 ^ 64)) (v.length - 1)

/-- Refresh of the index map after a reshuffle: the source loops over
order.iter().enumerate() inserting each (id, position) into the base map
(the existing index in upsert_member, a cleared one in prune_dead_members). -/
def reindexInto (base : List (MemberId × Nat)) (order : List MemberId) :
    List (MemberId × Nat) :=
  (order.enum.map fun p => (p.2, p.1)).foldl
    (fun acc p => mapInsertNat p.1 p.2 acc) base

/-- MemberList from src/gossip/member_list.rs. -/
structure MemberList where
  local_member : Member
  members : List (MemberId × MemberInfo)
  order : List MemberId
  index : List (MemberId × Nat)
  suspect_timeout : Nat
  cursor : Nat
deriving Repr, Inhabited

/-- MemberList::new: the local member is inserted into the map, the order
and the index. -/
def MemberList.new (local_member : Member) (suspect_timeout : Nat)
    (now : Nat) : MemberList :=
  { local_member := local_member
    members := [(local_member.id, MemberInfo.new local_member now)]
    order := [local_member.id]
    index := [(local_member.id, 0)]
    suspect_timeout := suspect_timeout
    cursor := 0 }

/-- Entry rewrite of upsert_member for a strictly larger incoming
incarnation: replace the member wholesale, refresh last_seen, clear
suspect_at. -/
def upsertNewer (m : Member) (now : Nat) (e : MemberInfo) : MemberInfo :=
  { e with member := m, last_seen := now, suspect_at := none }

/-- Entry rewrite of upsert_member for an equal incoming incarnation:
refresh last_seen and overwrite the state whenever it differs (the source
guards the state assignment with an inequality test, which this mirrors). -/
def upsertEqual (m : Member) (now : Nat) (e : MemberInfo) : MemberInfo :=
  { e with last_seen := now,
           member := if m.state = e.member.state then e.member
             else { e.member with state := m.state } }

/-- MemberList::upsert_member.  Known id: strictly larger incarnation
replaces the member wholesale, refreshes last_seen and clears suspect_at;
equal incarnation refreshes last_seen and overwrites the state whenever it
differs; smaller incarnation changes nothing.  Unknown id: insert, append
to the order, reshuffle the order (wall-clock seeded), refresh the index
and reset the cursor. -/
def MemberList.upsert_member (l : MemberList) (m : Member)
    (now seedNanos : Nat) : MemberList :=
  match mapGet m.id l.members with
  | some existing =>
      if m.incarnation > existing.member.incarnation then
        { l with members := mapSet m.id (upsertNewer m now) l.members }
      else if m.incarnation = existing.member.incarnation then
        { l with members := mapSet m.id (upsertEqual m now) l.members }
      else l
  | none =>
      let members1 := mapInsert m.id (MemberInfo.new m now) l.members
      let order1 := l.order ++ [m.id]
      let index1 := mapInsertNat m.id (order1.length - 1) l.index
      let order2 := shuffle order1 seedNanos
      { l with members := members1, order := order2,
               index := reindexInto index1 order2, cursor := 0 }

/-- MemberList::mark_alive: transition to Alive, refresh last_seen, clear
suspect_at; no-op for an unknown id. -/
def MemberList.mark_alive (l : MemberList) (member_id : MemberId)
    (now : Nat) : MemberList :=
  let members1 := mapSet member_id
    (fun info =>
      { info with
        member := if info.member.state = MemberState.Alive
          then info.member
          else { info.member with state := MemberState.Alive },
        last_seen := now, suspect_at := none }) l.members
  { l with members := members1 }

/-- MemberList::mark_suspect: only an Alive entry transitions, recording
suspect_at = now; Suspect and Dead entries are untouched. -/
def MemberList.mark_suspect (l : MemberList) (member_id : MemberId)
    (now : Nat) : MemberList :=
  let members1 := mapSet member_id
    (fun info =>
      if info.member.state = MemberState.Alive then
        { info with member := { info.member with state := MemberState.Suspect },
                    suspect_at := some now }
      else info) l.members
  { l with members := members1 }

/-- MemberList::mark_dead: transition to Dead (last_seen and suspect_at are
left untouched by the source). -/
def MemberList.mark_dead (l : MemberList) (member_id : MemberId) : MemberList :=
  let members1 := mapSet member_id
    (fun info =>
      if info.member.state = MemberState.Dead then info
      else { info with member := { info.member with state := MemberState.Dead } })
    l.members
  { l with members := members1 }

/-- MemberList::check_suspect_timeouts: collect every Suspect entry whose
suspicion is older than the timeout, then mark each Dead. -/
def MemberList.check_suspect_timeouts (l : MemberList) (now : Nat) : MemberList :=
  let to_mark_dead : List MemberId := l.members.filterMap fun p =>
    if p.2.member.state = MemberState.Suspect then
      match p.2.suspect_at with
      | some sa => if now - sa > l.suspect_timeout then some p.1 else none
      | none => none
    else none
  to_mark_dead.foldl (fun acc id => acc.mark_dead id) l

/-- MemberList::prune_dead_members: drop Dead entries older than the
timeout from the map and the order, reshuffle the order, rebuild the index
and reset the cursor. -/
def MemberList.prune_dead_members (l : MemberList) (dead_timeout : Nat)
    (now seedNanos : Nat) : MemberList :=
  let keep : MemberId × MemberInfo → Bool := fun p =>
    !(p.2.member.state = MemberState.Dead && now - p.2.last_seen > dead_timeout)
  let pruned : List MemberId := (l.members.filter fun p => !(keep p)).map Prod.fst
  let members1 := l.members.filter keep
  let order1 := l.order.filter fun id => !(pruned.contains id)
  let order2 := shuffle order1 seedNanos
  { l with members := members1, order := order2,
           index := reindexInto [] order2, cursor := 0 }

/-- Loop body of MemberList::get_random_alive_member: up to order.len()
iterations, each reading order[cursor % order.len()], advancing the cursor,
and returning the entry when it is Alive and not the local member. -/
def grLoop (local_id : MemberId) (members : List (MemberId × MemberInfo))
    (order : List MemberId) : Nat → Nat → Option Member × Nat
  | cursor, 0 => (none, cursor)
  | cursor, Nat.succ fuel =>
      let member_id := order.getD (cursor % order.length) default
      let cursor1 := cursor + 1
      match mapGet member_id members with
      | some info =>
          if info.member.state = MemberState.Alive ∧ info.member.id ≠ local_id
          then (some info.member, cursor1)
          else grLoop local_id members order cursor1 fuel
      | none => grLoop local_id members order cursor1 fuel

/-- MemberList::get_random_alive_member: rotation scan from the cursor;
returns the member found (if any) and the list with the advanced cursor. -/
def MemberList.get_random_alive_member (l : MemberList) :
    Option Member × MemberList :=
  if l.order.isEmpty then (none, l)
  else
    match grLoop l.local_member.id l.members l.order l.cursor l.order.length with
    | (res, cursor1) => (res, { l with cursor := cursor1 })

/-- MemberList::increment_incarnation: bump the local incarnation and
mirror it into the local map entry. -/
def MemberList.increment_incarnation (l : MemberList) : MemberList :=
  let inc1 := l.local_member.incarnation + 1
  { l with
    local_member := { l.local_member with incarnation := inc1 },
    members := mapSet l.local_member.id
      (fun info => { info with member := { info.member with incarnation := inc1 } })
      l.members }

/-- Loop body of GossipLayer::process_member_updates (src/gossip/layer.rs):
a Suspect/Dead update about the local id is a false accusation answered by
increment_incarnation and skipped; every other update is upserted. -/
def processStep (local_id : MemberId) (now seedNanos : Nat)
    (acc : MemberList) (u : MemberUpdate) : MemberList :=
  if u.member_id = local_id ∧
      (u.state = MemberState.Suspect ∨ u.state = MemberState.Dead) then
    acc.increment_incarnation
  else
    acc.upsert_member
      { id := u.member_id, addr := u.addr, state := u.state,
        incarnation := u.incarnation } now seedNanos

/-- GossipLayer::process_member_updates: the local id is snapshotted once
and the batch is folded through processStep. -/
def process_member_updates (l : MemberList) (updates : List MemberUpdate)
    (now seedNanos : Nat) : MemberList :=
  let local_id := l.local_member.id
  updates.foldl (processStep local_id now seedNanos) l

/-- Backend from src/backend/backend.rs. -/
structure Backend where
  addr : SocketAddr
  weight : Nat
deriving DecidableEq, Repr, Inhabited

/-- HealthStatus from src/backend/health.rs. -/
inductive HealthStatus where
  | Healthy
  | Unhealthy
deriving DecidableEq, Repr, Inhabited

/-- BackendHealth from src/backend/health.rs (Instant fields become Nat). -/
structure BackendHealth where
  backend : Backend
  status : HealthStatus
  consecutive_failures : Nat
  consecutive_successes : Nat
  last_check : Nat
  last_local_check : Nat
deriving DecidableEq, Repr, Inhabited

/-- BackendHealth::new: initial status Healthy, both counters zero, both
check stamps set to the construction instant. -/
def BackendHealth.new (b : Backend) (now : Nat) : BackendHealth :=
  { backend := b, status := HealthStatus.Healthy,
    consecutive_failures := 0, consecutive_successes := 0,
    last_check := now, last_local_check := now }

/-- BackendPool from src/backend/pool.rs. -/
structure BackendPool where
  backends : List BackendHealth
  current_index : Nat
deriving DecidableEq, Repr, Inhabited

/-- BackendPool::new: wraps every configured backend in BackendHealth::new. -/
def BackendPool.new (bs : List Backend) (now : Nat) : BackendPool :=
  { backends := bs.map (fun b => BackendHealth.new b now), current_index := 0 }

/-- Loop of BackendPool::select_backend: reads backends[ci], advances the
cursor modulo the length, returns on the first Healthy entry, and returns
none when the cursor wraps back to the start index.  The fuel (called with
the pool size) only bounds the recursion; the wrap test is what terminates
the source loop. -/
def selectLoop (bs : List BackendHealth) (start : Nat) :
    Nat → Nat → Option Backend × Nat
  | _, 0 => (none, start)
  | ci, Nat.succ fuel =>
      match bs[ci]? with
      | none => (none, ci)
      | some bh =>
          let ci1 := (ci + 1) % bs.length
          if bh.status = HealthStatus.Healthy then (some bh.backend, ci1)
          else if ci1 = start then (none, ci1)
          else selectLoop bs start ci1 fuel

/-- BackendPool::select_backend: scan from the current index, return the
first Healthy backend (advancing the index), or none after a full wrap. -/
def BackendPool.select_backend (p : BackendPool) : Option Backend × BackendPool :=
  if p.backends.isEmpty then (none, p)
  else
    match selectLoop p.backends p.current_index p.current_index p.backends.length with
    | (res, ci1) => (res, { p with current_index := ci1 })

/-- Per-entry body of BackendPool::update_health (the local-probe path):
stamp both check times, bump the matching-polarity counter, zero the other,
and flip the status once the counter reaches two. -/
def updateHealthBH (bh : BackendHealth) (is_healthy : Bool) (now : Nat) :
    BackendHealth :=
  let bh1 := { bh with last_check := now, last_local_check := now }
  if is_healthy then
    let bh2 := { bh1 with consecutive_successes := bh1.consecutive_successes + 1,
                          consecutive_failures := 0 }
    if bh2.consecutive_successes ≥ 2 ∧ bh2.status = HealthStatus.Unhealthy then
      { bh2 with status := HealthStatus.Healthy }
    else bh2
  else
    let bh2 := { bh1 with consecutive_successes := 0,
                          consecutive_failures := bh1.consecutive_failures + 1 }
    if bh2.consecutive_failures ≥ 2 ∧ bh2.status = HealthStatus.Healthy then
      { bh2 with status := HealthStatus.Unhealthy }
    else bh2

/-- Applies f to the first entry whose backend address matches
(iter_mut().find in the source); identity when none matches. -/
def updateFirstMatch (addr : SocketAddr) (f : BackendHealth → BackendHealth) :
    List BackendHealth → List BackendHealth
  | [] => []
  | bh :: rest =>
      if bh.backend.addr = addr then f bh :: rest
      else bh :: updateFirstMatch addr f rest

/-- BackendPool::update_health. -/
def BackendPool.update_health (p : BackendPool) (addr : SocketAddr)
    (is_healthy : Bool) (now : Nat) : BackendPool :=
  let backends1 :=
    updateFirstMatch addr (fun bh => updateHealthBH bh is_healthy now) p.backends
  { p with backends := backends1 }

/-- Per-entry body of BackendPool::apply_backend_update (the gossip
reconciliation path).  trust_local is the elapsed-time test against the
6-second window; an incoming healthy report inside the window is dropped,
an incoming unhealthy report inside the window applies only to a Healthy
entry with no consecutive failures; outside the window everything applies.
A status change resets the counters to (2, 0) in the new polarity; in all
applied cases last_check is stamped (last_local_check is not). -/
def applyUpdateBH (bh : BackendHealth) (is_healthy : Bool) (now : Nat) :
    BackendHealth :=
  let time_since_local_check := now - bh.last_local_check
  let trust_local := time_since_local_check < 6
  let should_apply :=
    if trust_local then
      if is_healthy then false
      else bh.status = HealthStatus.Healthy ∧ bh.consecutive_failures = 0
    else true
  if should_apply then
    let new_status := if is_healthy then HealthStatus.Healthy
      else HealthStatus.Unhealthy
    let bh1 :=
      if bh.status ≠ new_status then
        if is_healthy then
          { bh with status := new_status, consecutive_successes := 2,
                    consecutive_failures := 0 }
        else
          { bh with status := new_status, consecutive_failures := 2,
                    consecutive_successes := 0 }
      else bh
    { bh1 with last_check := now }
  else bh

/-- BackendPool::apply_backend_update. -/
def BackendPool.apply_backend_update (p : BackendPool) (u : BackendUpdate)
    (now : Nat) : BackendPool :=
  let backends1 :=
    updateFirstMatch u.backend_addr (fun bh => applyUpdateBH bh u.is_healthy now)
      p.backends
  { p with backends := backends1 }

/-!  Wire messages and bincode sizes (src/gossip/messages.rs).

bincode with its default options encodes: u8/bool in 1 byte, u16 in 2,
u32 in 4, u64 in 8; a String as a u64 length followed by its UTF-8 bytes;
a Vec as a u64 length followed by its elements; an enum as a u32 variant
tag followed by the payload.  serde encodes a SocketAddr (binary profile)
as a u32 family tag, the raw ip octets and a u16 port: 10 bytes for V4 and
22 for V6.  estimated_size (bincode::serialized_size) follows the same
arithmetic. -/

/-- Encoded size of a SocketAddr. -/
def SocketAddr.binSize : SocketAddr → Nat
  | SocketAddr.v4 _ _ => 10
  | SocketAddr.v6 _ _ => 22

/-- Encoded size of a MemberId (u64 length prefix plus UTF-8 bytes). -/
def MemberId.binSize (id : MemberId) : Nat :=
  8 + id.raw.utf8ByteSize

/-- Encoded size of a MemberState (unit enum variant: u32 tag). -/
def MemberState.binSize (_ : MemberState) : Nat := 4

/-- Encoded size of a MemberUpdate. -/
def MemberUpdate.binSize (u : MemberUpdate) : Nat :=
  u.member_id.binSize + u.addr.binSize + u.state.binSize + 8

/-- Encoded size of a BackendUpdate. -/
def BackendUpdate.binSize (u : BackendUpdate) : Nat :=
  u.backend_addr.binSize + 1 + u.from_member.binSize + 8

/-- GossipMessage from src/gossip/messages.rs. -/
inductive GossipMessage where
  | Ping (from_id : MemberId) (from_addr : SocketAddr) (incarnation : Nat)
      (member_updates : List MemberUpdate) (backend_updates : List BackendUpdate)
  | Ack (from_id : MemberId) (from_addr : SocketAddr) (incarnation : Nat)
      (member_updates : List MemberUpdate) (backend_updates : List BackendUpdate)
  | IndirectPing (from_id : MemberId) (from_addr : SocketAddr)
      (target_id : MemberId) (target_addr : SocketAddr)
  | IndirectAck (from_id : MemberId) (target_id : MemberId)
      (target_responded : Bool)
deriving DecidableEq, Repr

/-- Sum of the encoded sizes of a list of member updates. -/
def memberUpdatesSize (us : List MemberUpdate) : Nat :=
  us.foldr (fun u acc => u.binSize + acc) 0

/-- Sum of the encoded sizes of a list of backend updates. -/
def backendUpdatesSize (us : List BackendUpdate) : Nat :=
  us.foldr (fun u acc => u.binSize + acc) 0

/-- GossipMessage::estimated_size: bincode::serialized_size of the message
(u32 variant tag, the header fields, then each Vec as a u64 length prefix
plus its elements). -/
def GossipMessage.estimated_size : GossipMessage → Nat
  | GossipMessage.Ping f fa _ mus bus =>
      4 + f.binSize + fa.binSize + 8 +
        (8 + memberUpdatesSize mus) + (8 + backendUpdatesSize bus)
  | GossipMessage.Ack f fa _ mus bus =>
      4 + f.binSize + fa.binSize + 8 +
        (8 + memberUpdatesSize mus) + (8 + backendUpdatesSize bus)
  | GossipMessage.IndirectPing f fa t ta =>
      4 + f.binSize + fa.binSize + t.binSize + ta.binSize
  | GossipMessage.IndirectAck f t _ =>
      4 + f.binSize + t.binSize + 1

/-- MAX_UDP_PACKET_SIZE from src/gossip/messages.rs. -/
def MAX_UDP_PACKET_SIZE : Nat := 1400

/-- Vec::pop: removes and returns the last element. -/
def popLast {α : Type} : List α → Option (α × List α)
  | [] => none
  | [a] => some (a, [])
  | a :: b :: rest =>
      match popLast (b :: rest) with
      | some (u, rest1) => some (u, a :: rest1)
      | none => none

theorem popLast_length {α : Type} :
    ∀ (l : List α) (a : α) (rest : List α),
      popLast l = some (a, rest) → rest.length + 1 = l.length := by
  intro l
  induction l with
  | nil => intro a rest h; simp [popLast] at h
  | cons x xs ih =>
      intro a rest h
      cases xs with
      | nil =>
          simp only [popLast, Option.some.injEq, Prod.mk.injEq] at h
          rw [← h.2]
          rfl
      | cons y ys =>
          simp only [popLast] at h
          cases heq : popLast (y :: ys) with
          | none => rw [heq] at h; simp at h
          | some p =>
              rw [heq] at h
              simp only [Option.some.injEq, Prod.mk.injEq] at h
              have hlen := ih p.1 p.2 (by rw [heq])
              rw [← h.2]
              simp only [List.length_cons] at hlen ⊢
              omega

/-- Trimming loop for the member_updates of a Ping: while the accumulated
message is strictly below the ceiling and the source list is nonempty, pop
the last source update and push it onto the message.  The fuel (called
with the length of the pending list) only drives the structural recursion:
each iteration pops one element, so the fuel never runs out before the
loop condition fails. -/
def trimLoopMembers (f : MemberId) (fa : SocketAddr) (inc : Nat)
    (bus : List BackendUpdate) :
    Nat → List MemberUpdate → List MemberUpdate → List MemberUpdate
  | 0, acc, _ => acc
  | Nat.succ fuel, acc, pending =>
      if (GossipMessage.Ping f fa inc acc bus).estimated_size <
          MAX_UDP_PACKET_SIZE ∧ pending ≠ [] then
        match popLast pending with
        | some (u, rest) => trimLoopMembers f fa inc bus fuel (acc ++ [u]) rest
        | none => acc
      else acc

/-- Entry point of the member-update trimming loop. -/
def trimPingMembers (f : MemberId) (fa : SocketAddr) (inc : Nat)
    (acc : List MemberUpdate) (bus : List BackendUpdate)
    (pending : List MemberUpdate) : List MemberUpdate :=
  trimLoopMembers f fa inc bus pending.length acc pending

/-- Trimming loop for the backend_updates of a Ping, fuelled the same way. -/
def trimLoopBackends (f : MemberId) (fa : SocketAddr) (inc : Nat)
    (mus : List MemberUpdate) :
    Nat → List BackendUpdate → List BackendUpdate → List BackendUpdate
  | 0, acc, _ => acc
  | Nat.succ fuel, acc, pending =>
      if (GossipMessage.Ping f fa inc mus acc).estimated_size <
          MAX_UDP_PACKET_SIZE ∧ pending ≠ [] then
        match popLast pending with
        | some (u, rest) => trimLoopBackends f fa inc mus fuel (acc ++ [u]) rest
        | none => acc
      else acc

/-- Entry point of the backend-update trimming loop. -/
def trimPingBackends (f : MemberId) (fa : SocketAddr) (inc : Nat)
    (mus : List MemberUpdate) (acc : List BackendUpdate)
    (pending : List BackendUpdate) : List BackendUpdate :=
  trimLoopBackends f fa inc mus pending.length acc pending

/-- GossipMessage::trim_to_fit: Ping and Ack rebuild their piggy-backed
lists by popping from the supplied ones while the accumulated message is
below the ceiling (note the test happens before each push); IndirectPing
and IndirectAck pass through unchanged.  A Ping and an Ack with the same
fields have the same estimated size, so both variants share the loops. -/
def GossipMessage.trim_to_fit : GossipMessage → GossipMessage
  | GossipMessage.Ping f fa inc mus bus =>
      let mus1 := trimPingMembers f fa inc [] [] mus
      let bus1 := trimPingBackends f fa inc mus1 [] bus
      GossipMessage.Ping f fa inc mus1 bus1
  | GossipMessage.Ack f fa inc mus bus =>
      let mus1 := trimPingMembers f fa inc [] [] mus
      let bus1 := trimPingBackends f fa inc mus1 [] bus
      GossipMessage.Ack f fa inc mus1 bus1
  | other => other

/-!  Connection liveness (src/connection_pool/mod.rs). -/

/-- Outcome of TcpStream::try_read on a 1-byte buffer. -/
inductive TryReadResult where
  | ok (n : Nat)
  | errWouldBlock
  | errOther
deriving DecidableEq, Repr

/-- Observable state of a pooled TcpStream: what a non-blocking 1-byte
try_read returns, and whether peer_addr() succeeds. -/
structure TcpStreamModel where
  try_read_result : TryReadResult
  peer_addr_ok : Bool
deriving DecidableEq, Repr

/-- is_connection_alive from src/connection_pool/mod.rs: Ok(0) is EOF
(dead); Ok(n>0) is readable data (treated as alive by the source); a
WouldBlock error is idle-alive provided peer_addr() succeeds; any other
error is dead. -/
def is_connection_alive (s : TcpStreamModel) : Bool :=
  match s.try_read_result with
  | TryReadResult.ok 0 => false
  | TryReadResult.ok (Nat.succ _) => true
  | TryReadResult.errWouldBlock => s.peer_addr_ok
  | TryReadResult.errOther => false

/-!  Association-list lemmas. -/

theorem mapGet_mapSet_same (k : MemberId) (f : MemberInfo → MemberInfo) :
    ∀ m : List (MemberId × MemberInfo),
      mapGet k (mapSet k f m) = Option.map f (mapGet k m) := by
  intro m
  induction m with
  | nil => rfl
  | cons p rest ih =>
      by_cases h : p.1 = k
      · simp [mapGet, mapSet, h]
      · simp [mapGet, mapSet, h, ih]

theorem mapGet_mapSet_ne (k j : MemberId) (f : MemberInfo → MemberInfo)
    (hne : j ≠ k) :
    ∀ m : List (MemberId × MemberInfo),
      mapGet j (mapSet k f m) = mapGet j m := by
  have hkj : ¬ k = j := fun hc => hne hc.symm
  intro m
  induction m with
  | nil => rfl
  | cons p rest ih =>
      by_cases h : p.1 = k
      · have hpj : ¬ p.1 = j := by rw [h]; exact hkj
        simp [mapGet, mapSet, h, hpj, hkj]
      · by_cases h2 : p.1 = j <;> simp [mapGet, mapSet, h, h2, hne, ih]

theorem mapGet_mapInsert_same (k : MemberId) (v : MemberInfo) :
    ∀ m : List (MemberId × MemberInfo),
      mapGet k (mapInsert k v m) = some v := by
  intro m
  induction m with
  | nil => simp [mapGet, mapInsert]
  | cons p rest ih =>
      by_cases h : p.1 = k
      · simp [mapGet, mapInsert, h]
      · simp [mapGet, mapInsert, h, ih]

theorem mapGet_mapInsert_ne (k j : MemberId) (v : MemberInfo) (hne : j ≠ k) :
    ∀ m : List (MemberId × MemberInfo),
      mapGet j (mapInsert k v m) = mapGet j m := by
  have hkj : ¬ k = j := fun hc => hne hc.symm
  intro m
  induction m with
  | nil => simp [mapGet, mapInsert, hkj]
  | cons p rest ih =>
      by_cases h : p.1 = k
      · have hpj : ¬ p.1 = j := by rw [h]; exact hkj
        simp [mapGet, mapInsert, h, hkj, hpj]
      · by_cases h2 : p.1 = j <;> simp [mapGet, mapInsert, h, h2, hne, ih]

/-!  C9: connection-liveness classification. -/

/-- C9 counterexample: the claim says any readable data on an idle pooled
connection is classified dead, and that would-block means idle-alive; the
source classifies readable data (Ok(1)) as alive, and classifies
would-block as dead whenever peer_addr() fails. -/
theorem is_connection_alive_counterexample :
    is_connection_alive
        { try_read_result := TryReadResult.ok 1, peer_addr_ok := true } = true ∧
    is_connection_alive
        { try_read_result := TryReadResult.errWouldBlock, peer_addr_ok := false }
      = false := by
  exact ⟨rfl, rfl⟩

/-- C9 (amended): the liveness classification used when popping a pooled
connection treats a zero-byte read (EOF) as dead, readable data as alive,
a would-block error as alive exactly when peer_addr() succeeds, and any
other error as dead. -/
theorem is_connection_alive_spec (s : TcpStreamModel) :
    (s.try_read_result = TryReadResult.ok 0 → is_connection_alive s = false) ∧
    (∀ n : Nat, s.try_read_result = TryReadResult.ok (n + 1) →
      is_connection_alive s = true) ∧
    (s.try_read_result = TryReadResult.errWouldBlock →
      is_connection_alive s = s.peer_addr_ok) ∧
    (s.try_read_result = TryReadResult.errOther →
      is_connection_alive s = false) := by
  refine ⟨?_, ?_, ?_, ?_⟩ <;> intro h <;>
    first
    | simp [is_connection_alive, h]
    | (intro h2; simp [is_connection_alive, h2])

/-- C9 witness: the amended classification evaluated at a closed EOF input. -/
theorem is_connection_alive_spec_witness :
    is_connection_alive
        { try_read_result := TryReadResult.ok 0, peer_addr_ok := true } = false :=
  (is_connection_alive_spec
      { try_read_result := TryReadResult.ok 0, peer_addr_ok := true }).1 rfl

/-!  C5: trust-local dominance for gossiped healthy reports. -/

theorem applyUpdateBH_healthy_fresh (bh : BackendHealth) (now : Nat)
    (hfresh : now - bh.last_local_check < 6) :
    applyUpdateBH bh true now = bh := by
  simp [applyUpdateBH, hfresh]

theorem updateFirstMatch_congr_id (addr : SocketAddr)
    (f : BackendHealth → BackendHealth) :
    ∀ bs : List BackendHealth,
      (∀ bh ∈ bs, bh.backend.addr = addr → f bh = bh) →
      updateFirstMatch addr f bs = bs := by
  intro bs
  induction bs with
  | nil => intro _; rfl
  | cons bh rest ih =>
      intro h
      by_cases hb : bh.backend.addr = addr
      · simp [updateFirstMatch, hb, h bh (by simp) hb]
      · simp [updateFirstMatch, hb]
        exact ih fun x hx => h x (by simp [hx])

/-- C5: a gossiped healthy report about a backend whose last local probe is
inside the 6-second trust window leaves the pool completely unchanged; in
particular it cannot flip an Unhealthy backend to Healthy. -/
theorem apply_backend_update_healthy_trust_local (p : BackendPool)
    (u : BackendUpdate) (now : Nat) (hh : u.is_healthy = true)
    (hfresh : ∀ bh ∈ p.backends, bh.backend.addr = u.backend_addr →
      now - bh.last_local_check < 6) :
    p.apply_backend_update u now = p := by
  unfold BackendPool.apply_backend_update
  have : updateFirstMatch u.backend_addr
      (fun bh => applyUpdateBH bh u.is_healthy now) p.backends = p.backends := by
    apply updateFirstMatch_congr_id
    intro bh hmem haddr
    rw [hh]
    exact applyUpdateBH_healthy_fresh bh now (hfresh bh hmem haddr)
  simp [this]

/-- C5 witness: a concrete Unhealthy backend probed 2 seconds ago is not
resurrected by a gossiped healthy report. -/
theorem apply_backend_update_healthy_trust_local_witness :
    BackendPool.apply_backend_update
        { backends := [{ backend := { addr := SocketAddr.v4 1 80, weight := 1 },
                         status := HealthStatus.Unhealthy,
                         consecutive_failures := 2, consecutive_successes := 0,
                         last_check := 10, last_local_check := 10 }],
          current_index := 0 }
        { backend_addr := SocketAddr.v4 1 80, is_healthy := true,
          from_member := { raw := "peer" }, timestamp := 12 } 12
      = { backends := [{ backend := { addr := SocketAddr.v4 1 80, weight := 1 },
                         status := HealthStatus.Unhealthy,
                         consecutive_failures := 2, consecutive_successes := 0,
                         last_check := 10, last_local_check := 10 }],
          current_index := 0 } := by
  apply apply_backend_update_healthy_trust_local
  · rfl
  · intro bh hmem haddr
    simp at hmem
    rw [hmem]
    decide

/-!  C10: the trust-local window immediately after construction. -/

/-- C10: BackendPool::new stamps every backend's last_local_check with the
construction instant (and makes it Healthy with zero failures), so during
the first 6 seconds a gossiped healthy report is ignored outright, and a
gossiped unhealthy report is applied exactly when the entry is Healthy
with zero consecutive failures (flipping it to Unhealthy with the counters
forced to two failures). -/
theorem backend_pool_new_trust_window (bs : List Backend) (t0 now : Nat)
    (u : BackendUpdate) (hwin : now - t0 < 6) :
    (∀ bh ∈ (BackendPool.new bs t0).backends,
      bh.last_local_check = t0 ∧ bh.status = HealthStatus.Healthy ∧
        bh.consecutive_failures = 0) ∧
    (∀ bh : BackendHealth, bh.last_local_check = t0 →
      applyUpdateBH bh true now = bh ∧
      applyUpdateBH bh false now =
        (if bh.status = HealthStatus.Healthy ∧ bh.consecutive_failures = 0
         then { bh with status := HealthStatus.Unhealthy,
                        consecutive_failures := 2, consecutive_successes := 0,
                        last_check := now }
         else bh)) ∧
    (u.is_healthy = true →
      (BackendPool.new bs t0).apply_backend_update u now = BackendPool.new bs t0) := by
  refine ⟨?_, ?_, ?_⟩
  · intro bh hmem
    simp [BackendPool.new] at hmem
    obtain ⟨b, _, rfl⟩ := hmem
    simp [BackendHealth.new]
  · intro bh hllc
    constructor
    · exact applyUpdateBH_healthy_fresh bh now (by rw [hllc]; exact hwin)
    · by_cases hcond : bh.status = HealthStatus.Healthy ∧ bh.consecutive_failures = 0
      · have hne : bh.status ≠ HealthStatus.Unhealthy := by
          rw [hcond.1]; intro hx; cases hx
        simp [applyUpdateBH, hllc, hwin, hcond, hne]
      · simp [applyUpdateBH, hllc, hwin, hcond]
  · intro hh
    apply apply_backend_update_healthy_trust_local _ _ _ hh
    intro bh hmem _
    simp [BackendPool.new] at hmem
    obtain ⟨b, _, rfl⟩ := hmem
    simpa [BackendHealth.new] using hwin

/-- C10 witness: the window facts evaluated on a concrete one-backend pool
three seconds after construction. -/
theorem backend_pool_new_trust_window_witness :
    BackendPool.apply_backend_update
        (BackendPool.new [{ addr := SocketAddr.v4 1 80, weight := 1 }] 100)
        { backend_addr := SocketAddr.v4 1 80, is_healthy := true,
          from_member := { raw := "peer" }, timestamp := 103 } 103
      = BackendPool.new [{ addr := SocketAddr.v4 1 80, weight := 1 }] 100 :=
  (backend_pool_new_trust_window
      [{ addr := SocketAddr.v4 1 80, weight := 1 }] 100 103
      { backend_addr := SocketAddr.v4 1 80, is_healthy := true,
        from_member := { raw := "peer" }, timestamp := 103 }
      (by decide)).2.2 rfl

/-!  C3: the trim_to_fit ceiling. -/

/-- Concrete member update of encoded size 31 bytes. -/
def overflowUpdate : MemberUpdate :=
  { member_id := { raw := "m" }, addr := SocketAddr.v4 1 1,
    state := MemberState.Alive, incarnation := 0 }

/-- Concrete Ping whose header is 47 bytes and whose 44 piggy-backed member
updates are 31 bytes each. -/
def overflowPing : GossipMessage :=
  GossipMessage.Ping { raw := "a" } (SocketAddr.v4 1 1) 0
    (List.replicate 44 overflowUpdate) []

/-- C3 (code bug): trim_to_fit tests the ceiling before each push and
never removes the update that crosses it, so the trimmed message can
exceed 1400 bytes; on overflowPing the loop pushes updates while the size
is 47, 78, ..., 1380 (all below 1400) and stops only at 1411. -/
theorem trim_to_fit_exceeds_ceiling :
    overflowPing.trim_to_fit.estimated_size = 1411 ∧
    MAX_UDP_PACKET_SIZE = 1400 ∧
    overflowPing.trim_to_fit.estimated_size > MAX_UDP_PACKET_SIZE := by
  refine ⟨?_, rfl, ?_⟩ <;> decide

/-!  C1: upsert_member on a known id. -/

/-- C1 (amended): for a known id, upsert_member replaces the stored member
wholesale, refreshes last_seen and clears suspect_at when the incoming
incarnation is strictly greater; when the incarnations are equal it
refreshes last_seen and adopts the incoming state whenever it differs
(any state change is accepted, including Dead to Alive); when the incoming
incarnation is smaller the list is left completely unchanged.  Entries
under other ids, the order, the index and the cursor are untouched in the
known-id cases. -/
theorem upsert_member_known_spec (l : MemberList) (m : Member)
    (now seed : Nat) (ex : MemberInfo)
    (hex : mapGet m.id l.members = some ex) :
    (ex.member.incarnation < m.incarnation →
      l.upsert_member m now seed
        = { l with members := mapSet m.id (upsertNewer m now) l.members } ∧
      mapGet m.id (l.upsert_member m now seed).members
        = some { member := m, last_seen := now, suspect_at := none } ∧
      ∀ j, j ≠ m.id →
        mapGet j (l.upsert_member m now seed).members = mapGet j l.members) ∧
    (m.incarnation = ex.member.incarnation →
      l.upsert_member m now seed
        = { l with members := mapSet m.id (upsertEqual m now) l.members } ∧
      mapGet m.id (l.upsert_member m now seed).members
        = some { member := { ex.member with state := m.state },
                 last_seen := now, suspect_at := ex.suspect_at } ∧
      ∀ j, j ≠ m.id →
        mapGet j (l.upsert_member m now seed).members = mapGet j l.members) ∧
    (m.incarnation < ex.member.incarnation →
      l.upsert_member m now seed = l) := by
  refine ⟨?_, ?_, ?_⟩
  · intro hlt
    have heq : l.upsert_member m now seed
        = { l with members := mapSet m.id (upsertNewer m now) l.members } := by
      simp [MemberList.upsert_member, hex, hlt]
    refine ⟨heq, ?_, ?_⟩
    · rw [heq]
      simp [mapGet_mapSet_same, hex, upsertNewer]
    · intro j hj
      rw [heq]
      exact mapGet_mapSet_ne m.id j _ hj l.members
  · intro heqinc
    have hnlt : ¬ ex.member.incarnation < m.incarnation := by omega
    have heq : l.upsert_member m now seed
        = { l with members := mapSet m.id (upsertEqual m now) l.members } := by
      simp [MemberList.upsert_member, hex, hnlt, heqinc]
    refine ⟨heq, ?_, ?_⟩
    · rw [heq]
      simp only [mapGet_mapSet_same, hex, Option.map_some]
      by_cases hst : m.state = ex.member.state
      · simp [upsertEqual, hst]
      · simp [upsertEqual, hst]
    · intro j hj
      rw [heq]
      exact mapGet_mapSet_ne m.id j _ hj l.members
  · intro hlt
    have hnlt : ¬ ex.member.incarnation < m.incarnation := by omega
    have hne : ¬ m.incarnation = ex.member.incarnation := by omega
    simp [MemberList.upsert_member, hex, hnlt, hne]

/-- Concrete local member used by the example member lists below. -/
def fixLoc : Member :=
  { id := { raw := "loc" }, addr := SocketAddr.v4 1 1,
    state := MemberState.Alive, incarnation := 0 }

/-- Concrete remote member stored as Dead at incarnation 5. -/
def fixDeadB : Member :=
  { id := { raw := "b" }, addr := SocketAddr.v4 2 2,
    state := MemberState.Dead, incarnation := 5 }

/-- Concrete two-member list: the local member plus fixDeadB. -/
def fixList : MemberList :=
  { local_member := fixLoc,
    members := [(fixLoc.id, MemberInfo.new fixLoc 0),
                (fixDeadB.id, MemberInfo.new fixDeadB 0)],
    order := [fixLoc.id, fixDeadB.id], index := [], suspect_timeout := 5,
    cursor := 0 }

/-- C1 witness: the stale branch of the amended theorem evaluated on the
concrete list (incarnation 4 against stored 5 changes nothing). -/
theorem upsert_member_known_spec_witness :
    fixList.upsert_member { fixDeadB with incarnation := 4 } 9 0 = fixList :=
  (upsert_member_known_spec fixList { fixDeadB with incarnation := 4 } 9 0
      (MemberInfo.new fixDeadB 0) (by decide)).2.2 (by decide)

/-- C1 counterexample: with equal incarnations the source adopts any
differing state, so an equal-incarnation update promotes a stored Dead
member back to Alive, which the claim asserts can never happen. -/
theorem upsert_member_equal_dead_to_alive :
    ({ fixDeadB with state := MemberState.Alive } : Member).incarnation
      = fixDeadB.incarnation ∧
    Option.map (fun i => i.member.state) (mapGet fixDeadB.id fixList.members)
      = some MemberState.Dead ∧
    Option.map (fun i => i.member.state)
        (mapGet fixDeadB.id
          (fixList.upsert_member { fixDeadB with state := MemberState.Alive }
            1 0).members)
      = some MemberState.Alive := by
  decide

/-!  C6: health debouncing. -/

/-- Backend-health states reachable from construction through any
interleaving of local probes (update_health) and gossiped reconciliations
(apply_backend_update), at arbitrary times. -/
inductive ReachableBH : BackendHealth → Prop where
  | init (b : Backend) (t0 : Nat) : ReachableBH (BackendHealth.new b t0)
  | probe (bh : BackendHealth) (r : Bool) (now : Nat) :
      ReachableBH bh → ReachableBH (updateHealthBH bh r now)
  | gossip (bh : BackendHealth) (h : Bool) (now : Nat) :
      ReachableBH bh → ReachableBH (applyUpdateBH bh h now)

/-- In every reachable health state, a Healthy entry carries at most one
consecutive failure and an Unhealthy entry at most one consecutive
success (the flip fires as soon as the counter would reach two). -/
theorem reachable_counter_inv (bh : BackendHealth) (hreach : ReachableBH bh) :
    (bh.status = HealthStatus.Healthy → bh.consecutive_failures ≤ 1) ∧
    (bh.status = HealthStatus.Unhealthy → bh.consecutive_successes ≤ 1) := by
  induction hreach with
  | init b t0 => simp [BackendHealth.new]
  | probe bh r now _ ih =>
      rcases ih with ⟨ih1, ih2⟩
      unfold updateHealthBH
      cases r <;> simp only [Bool.false_eq_true, if_false, if_true] <;>
        split_ifs with hc <;> constructor <;> intro hs <;> simp_all
  | gossip bh h now _ ih =>
      rcases ih with ⟨ih1, ih2⟩
      unfold applyUpdateBH
      cases h <;> simp only [Bool.false_eq_true, if_false, if_true] <;>
        split_ifs with hc1 hc2 <;> constructor <;> intro hs <;> simp_all

/-- C6: starting from any reachable counter state, a local probe result
flips the status only when it is the second of two same-polarity results
(the matching counter is already exactly one), and two consecutive
same-polarity results always flip an opposite status: two failures drive
Healthy to Unhealthy and two successes drive Unhealthy to Healthy. -/
theorem update_health_debounce (bh : BackendHealth) (hreach : ReachableBH bh)
    (r : Bool) (now now2 : Nat) :
    ((updateHealthBH bh r now).status ≠ bh.status →
      (bh.status = HealthStatus.Healthy ∧ r = false ∧
        bh.consecutive_failures = 1) ∨
      (bh.status = HealthStatus.Unhealthy ∧ r = true ∧
        bh.consecutive_successes = 1)) ∧
    (bh.status = HealthStatus.Healthy →
      (updateHealthBH (updateHealthBH bh false now) false now2).status
        = HealthStatus.Unhealthy) ∧
    (bh.status = HealthStatus.Unhealthy →
      (updateHealthBH (updateHealthBH bh true now) true now2).status
        = HealthStatus.Healthy) := by
  obtain ⟨ih1, ih2⟩ := reachable_counter_inv bh hreach
  refine ⟨?_, ?_, ?_⟩
  · intro hflip
    unfold updateHealthBH at hflip
    cases r with
    | false =>
        simp only [Bool.false_eq_true, if_false] at hflip
        split_ifs at hflip with hc
        · left
          refine ⟨hc.2, rfl, ?_⟩
          have := ih1 hc.2
          simp at hc
          omega
        · simp at hflip
    | true =>
        simp only [if_true] at hflip
        split_ifs at hflip with hc
        · right
          refine ⟨hc.2, rfl, ?_⟩
          have := ih2 hc.2
          simp at hc
          omega
        · simp at hflip
  · intro hs
    by_cases hf : bh.consecutive_failures = 0
    · simp [updateHealthBH, hs, hf]
    · have h2 : bh.consecutive_failures + 1 ≥ 2 := by omega
      simp [updateHealthBH, hs, hf, h2]
  · intro hs
    by_cases hf : bh.consecutive_successes = 0
    · simp [updateHealthBH, hs, hf]
    · have h2 : bh.consecutive_successes + 1 ≥ 2 := by omega
      simp [updateHealthBH, hs, hf, h2]

/-- Concrete backend used by witnesses. -/
def fixB : Backend := { addr := SocketAddr.v4 9 80, weight := 1 }

/-- C6 witness: two consecutive failed probes flip a freshly constructed
(Healthy, reachable) backend to Unhealthy. -/
theorem update_health_debounce_witness :
    (updateHealthBH (updateHealthBH (BackendHealth.new fixB 0) false 1) false 2).status
      = HealthStatus.Unhealthy :=
  (update_health_debounce (BackendHealth.new fixB 0) (ReachableBH.init fixB 0)
      false 1 2).2.1 rfl

/-!  C4: backend selection. -/

/-- Boolean form of the Healthy test used by select_backend. -/
def isHealthyB (bh : BackendHealth) : Bool :=
  bh.status = HealthStatus.Healthy

/-- The selection loop, entered at a cursor whose scan window wraps back
to the start index after exactly rest.length checks, returns the first
Healthy entry of that window (rest lists the entries of the window in
scan order). -/
theorem selectLoop_spec (bs : List BackendHealth) (start : Nat) :
    ∀ (rest : List BackendHealth) (ci : Nat),
      ci < bs.length → 1 ≤ rest.length → rest.length ≤ bs.length →
      (∀ k, k < rest.length → rest[k]? = bs[(ci + k) % bs.length]?) →
      (ci + rest.length) % bs.length = start →
      ∃ ci2, selectLoop bs start ci rest.length
        = (Option.map (fun bh => bh.backend) (rest.find? isHealthyB), ci2) := by
  intro rest
  induction rest with
  | nil => intro ci _ h1 _ _ _; simp at h1
  | cons a rest2 ih =>
      intro ci hci _ hle hidx hstart
      have hn : 0 < bs.length := by
        have : (a :: rest2).length = rest2.length + 1 := rfl
        omega
      have ha : bs[ci]? = some a := by
        have h0 := hidx 0 (by simp)
        simp only [Nat.add_zero, Nat.mod_eq_of_lt hci] at h0
        simpa using h0.symm
      by_cases hh : a.status = HealthStatus.Healthy
      · refine ⟨(ci + 1) % bs.length, ?_⟩
        simp only [List.length_cons, selectLoop, ha, hh, if_pos]
        simp [List.find?_cons, isHealthyB, hh]
      · cases rest2 with
        | nil =>
            refine ⟨(ci + 1) % bs.length, ?_⟩
            have hwrap : (ci + 1) % bs.length = start := by
              simpa using hstart
            simp only [List.length_cons, List.length_nil, selectLoop, ha]
            simp [hh, hwrap, List.find?_cons, isHealthyB]
        | cons b rest3 =>
            have hle2 : rest3.length + 2 ≤ bs.length := by simpa using hle
            have hnw : (ci + 1) % bs.length ≠ start := by
              intro hcontra
              rw [← hstart] at hcontra
              have hrw : ci + (a :: b :: rest3).length
                  = ci + 1 + (rest3.length + 1) := by simp; omega
              rw [hrw] at hcontra
              have hmod2 : Nat.ModEq bs.length (ci + 1 + 0)
                  (ci + 1 + (rest3.length + 1)) := by
                simpa using hcontra
              have h0 : Nat.ModEq bs.length 0 (rest3.length + 1) :=
                Nat.ModEq.add_left_cancel' (ci + 1) hmod2
              have hdvd : bs.length ∣ rest3.length + 1 :=
                (Nat.modEq_zero_iff_dvd).mp h0.symm
              have hlarge : bs.length ≤ rest3.length + 1 :=
                Nat.le_of_dvd (by omega) hdvd
              omega
            have hci1 : (ci + 1) % bs.length < bs.length := Nat.mod_lt _ hn
            have hidx2 : ∀ k, k < (b :: rest3).length →
                (b :: rest3)[k]? =
                  bs[((ci + 1) % bs.length + k) % bs.length]? := by
              intro k hk
              have hk2 : k < rest3.length + 1 := by simpa using hk
              have hx := hidx (k + 1) (by simp; omega)
              simp only [List.getElem?_cons_succ] at hx
              rw [hx]
              rw [Nat.mod_add_mod]
              have harith : ci + (k + 1) = ci + 1 + k := by omega
              rw [harith]
            have hstart2 : ((ci + 1) % bs.length + (b :: rest3).length)
                % bs.length = start := by
              rw [Nat.mod_add_mod, ← hstart]
              have harith : ci + 1 + (b :: rest3).length
                  = ci + (a :: b :: rest3).length := by simp; omega
              rw [harith]
            obtain ⟨ci2, hrec⟩ := ih ((ci + 1) % bs.length) hci1 (by simp)
              (by simp at hle ⊢; omega) hidx2 hstart2
            refine ⟨ci2, ?_⟩
            have hfind : List.find? isHealthyB (a :: b :: rest3)
                = List.find? isHealthyB (b :: rest3) := by
              simp [List.find?_cons, isHealthyB, hh]
            rw [hfind, ← hrec]
            rw [List.length_cons]
            simp only [selectLoop, ha]
            rw [if_neg (by simpa using hh), if_neg hnw]

/-- C4: select_backend never returns an Unhealthy backend, and it returns
nothing exactly when no Healthy backend exists in the pool.  The
current_index bound is the reachable-state invariant of the pool (the
index starts at zero and is only ever assigned modulo the length; the
source would panic on an out-of-range index, which is unreachable). -/
theorem select_backend_spec (p : BackendPool)
    (hwf : p.backends = [] ∨ p.current_index < p.backends.length) :
    (∀ b, (p.select_backend).1 = some b →
      ∃ bh ∈ p.backends, bh.status = HealthStatus.Healthy ∧ bh.backend = b) ∧
    ((p.select_backend).1 = none ↔
      ∀ bh ∈ p.backends, bh.status ≠ HealthStatus.Healthy) := by
  rcases hwf with hemp | hci
  · constructor
    · intro b hb
      simp [BackendPool.select_backend, hemp, List.isEmpty] at hb
    · simp [BackendPool.select_backend, hemp, List.isEmpty]
  · have hn : 0 < p.backends.length := by omega
    have hne : ¬ p.backends.isEmpty := by
      cases hb : p.backends with
      | nil => rw [hb] at hn; simp at hn
      | cons x xs => simp [hb]
    obtain ⟨ci2, hloop⟩ := selectLoop_spec p.backends p.current_index
      (p.backends.rotate p.current_index) p.current_index hci
      (by simp [List.length_rotate]; omega)
      (by simp [List.length_rotate])
      (by
        intro k hk
        simp only [List.length_rotate] at hk
        rw [List.getElem?_eq_getElem (by simpa using hk),
            List.getElem?_eq_getElem (Nat.mod_lt _ hn)]
        congr 1
        rw [List.getElem_rotate]
        congr 1
        rw [Nat.add_comm])
      (by
        rw [List.length_rotate, Nat.add_mod_right]
        exact Nat.mod_eq_of_lt hci)
    have hsel : (p.select_backend).1
        = Option.map (fun bh => bh.backend)
            ((p.backends.rotate p.current_index).find? isHealthyB) := by
      unfold BackendPool.select_backend
      rw [if_neg hne]
      rw [show p.backends.length
          = (p.backends.rotate p.current_index).length
          from (List.length_rotate _ _).symm]
      rw [hloop]
    constructor
    · intro b hb
      rw [hsel] at hb
      cases hfind : (p.backends.rotate p.current_index).find? isHealthyB with
      | none => rw [hfind] at hb; simp at hb
      | some bh0 =>
          rw [hfind] at hb
          simp at hb
          refine ⟨bh0, ?_, ?_, hb⟩
          · exact (List.mem_rotate).mp (List.mem_of_find?_eq_some hfind)
          · have := List.find?_some hfind
            simpa [isHealthyB] using this
    · rw [hsel]
      constructor
      · intro hnone bh hmem
        cases hfind : (p.backends.rotate p.current_index).find? isHealthyB with
        | none =>
            have hall := List.find?_eq_none.mp hfind bh
              ((List.mem_rotate).mpr hmem)
            simpa [isHealthyB] using hall
        | some bh0 => rw [hfind] at hnone; simp at hnone
      · intro hall
        have : (p.backends.rotate p.current_index).find? isHealthyB = none := by
          rw [List.find?_eq_none]
          intro x hx
          have := hall x ((List.mem_rotate).mp hx)
          simpa [isHealthyB] using this
        rw [this]
        rfl

/-- Concrete single-entry pool whose only backend is Unhealthy. -/
def fixPoolU : BackendPool :=
  { backends := [{ backend := fixB, status := HealthStatus.Unhealthy,
                   consecutive_failures := 2, consecutive_successes := 0,
                   last_check := 0, last_local_check := 0 }],
    current_index := 0 }

/-- C4 witness: on the concrete all-Unhealthy pool the spec yields that
selection returns nothing. -/
theorem select_backend_spec_witness :
    (fixPoolU.select_backend).1 = none :=
  (select_backend_spec fixPoolU (Or.inr (by decide))).2.mpr (by decide)

/-!  C8: the suspect_at invariant. -/

/-- Invariant claimed by the spec: a Suspect member carries a suspect_at
timestamp and every other member carries none. -/
def SuspectInv (l : MemberList) : Prop :=
  ∀ p ∈ l.members,
    (p.2.member.state = MemberState.Suspect → p.2.suspect_at ≠ none) ∧
    (p.2.member.state ≠ MemberState.Suspect → p.2.suspect_at = none)

instance (l : MemberList) : Decidable (SuspectInv l) := by
  unfold SuspectInv
  infer_instance

theorem mapSet_mem (k : MemberId) (f : MemberInfo → MemberInfo) :
    ∀ (m : List (MemberId × MemberInfo)) (q : MemberId × MemberInfo),
      q ∈ mapSet k f m → q ∈ m ∨ ∃ v, (k, v) ∈ m ∧ q = (k, f v) := by
  intro m
  induction m with
  | nil => intro q hq; simp [mapSet] at hq
  | cons p rest ih =>
      intro q hq
      by_cases h : p.1 = k
      · rw [mapSet, if_pos h] at hq
        rcases List.mem_cons.mp hq with hq1 | hq2
        · right
          refine ⟨p.2, ?_, ?_⟩
          · have hp : (k, p.2) = p := by rw [← h]
            rw [hp]
            exact List.mem_cons_self _ _
          · rw [hq1, h]
        · left
          exact List.mem_cons_of_mem _ hq2
      · rw [mapSet, if_neg h] at hq
        rcases List.mem_cons.mp hq with hq1 | hq2
        · left
          rw [hq1]
          exact List.mem_cons_self _ _
        · rcases ih q hq2 with hin | ⟨v, hv, hqv⟩
          · exact Or.inl (List.mem_cons_of_mem _ hin)
          · exact Or.inr ⟨v, List.mem_cons_of_mem _ hv, hqv⟩

/-- C8 (amended): the invariant (Suspect entries carry suspect_at, all
others carry none) is preserved by mark_alive, mark_suspect and
prune_dead_members; it is not preserved by mark_dead (and hence
check_suspect_timeouts), which leaves suspect_at set on the entry it
transitions from Suspect to Dead, nor by upsert_member, whose
higher-incarnation and equal-incarnation branches can produce a Suspect
entry with suspect_at unset. -/
theorem suspect_inv_preserved_amended (l : MemberList) (hinv : SuspectInv l)
    (id : MemberId) (now dead_timeout seed : Nat) :
    SuspectInv (l.mark_alive id now) ∧
    SuspectInv (l.mark_suspect id now) ∧
    SuspectInv (l.prune_dead_members dead_timeout now seed) := by
  refine ⟨?_, ?_, ?_⟩
  · intro q hq
    rcases mapSet_mem id _ l.members q hq with hin | ⟨v, hv, hqv⟩
    · exact hinv q hin
    · rw [hqv]
      by_cases hs : v.member.state = MemberState.Alive <;>
        simp [hs]
  · intro q hq
    rcases mapSet_mem id _ l.members q hq with hin | ⟨v, hv, hqv⟩
    · exact hinv q hin
    · rw [hqv]
      by_cases hs : v.member.state = MemberState.Alive
      · simp [hs]
      · simpa [hs] using hinv (id, v) hv
  · intro q hq
    unfold MemberList.prune_dead_members at hq
    simp only [List.mem_filter] at hq
    exact hinv q hq.1

/-- C8 witness: the three preserved operations evaluated on a concrete
invariant-satisfying list. -/
theorem suspect_inv_preserved_amended_witness :
    SuspectInv (fixList.mark_suspect fixDeadB.id 3) :=
  (suspect_inv_preserved_amended fixList (by decide) fixDeadB.id 3 60 0).2.1

/-- Concrete list with one Suspect member (suspect_at set), satisfying the
suspect_at invariant. -/
def fixSuspectList : MemberList :=
  { local_member := fixLoc,
    members := [(fixLoc.id, MemberInfo.new fixLoc 0),
                ({ raw := "s" },
                 { member := { id := { raw := "s" }, addr := SocketAddr.v4 3 3,
                               state := MemberState.Suspect, incarnation := 1 },
                   last_seen := 0, suspect_at := some 0 })],
    order := [fixLoc.id, { raw := "s" }], index := [], suspect_timeout := 5,
    cursor := 0 }

/-- C8 counterexample: mark_dead transitions the Suspect member to Dead
but leaves suspect_at set, so a non-Suspect entry carries a suspect_at
timestamp and the claimed invariant is not preserved by every operation. -/
theorem mark_dead_breaks_suspect_inv :
    SuspectInv fixSuspectList ∧
    ¬ SuspectInv (fixSuspectList.mark_dead { raw := "s" }) := by
  decide

/-!  C2: self-preservation against false accusations. -/

/-- Boolean form of the false-accusation test of process_member_updates. -/
def isSelfAccusation (local_id : MemberId) (u : MemberUpdate) : Bool :=
  if u.member_id = local_id ∧
      (u.state = MemberState.Suspect ∨ u.state = MemberState.Dead)
  then true else false

theorem upsert_member_local_member (l : MemberList) (m : Member)
    (now seed : Nat) :
    (l.upsert_member m now seed).local_member = l.local_member := by
  unfold MemberList.upsert_member
  cases mapGet m.id l.members with
  | none => rfl
  | some ex => by_cases h1 : m.incarnation > ex.member.incarnation <;>
      by_cases h2 : m.incarnation = ex.member.incarnation <;> simp [h1, h2]

theorem upsert_members_eq_newer (l : MemberList) (m : Member) (now seed : Nat)
    (ex : MemberInfo) (hex : mapGet m.id l.members = some ex)
    (h1 : ex.member.incarnation < m.incarnation) :
    (l.upsert_member m now seed).members
      = mapSet m.id (upsertNewer m now) l.members := by
  simp [MemberList.upsert_member, hex, h1]

theorem upsert_members_eq_equal (l : MemberList) (m : Member) (now seed : Nat)
    (ex : MemberInfo) (hex : mapGet m.id l.members = some ex)
    (h2 : m.incarnation = ex.member.incarnation) :
    (l.upsert_member m now seed).members
      = mapSet m.id (upsertEqual m now) l.members := by
  have h1 : ¬ ex.member.incarnation < m.incarnation := by omega
  simp [MemberList.upsert_member, hex, h1, h2]

theorem upsert_eq_less (l : MemberList) (m : Member) (now seed : Nat)
    (ex : MemberInfo) (hex : mapGet m.id l.members = some ex)
    (h3 : m.incarnation < ex.member.incarnation) :
    l.upsert_member m now seed = l := by
  have h1 : ¬ ex.member.incarnation < m.incarnation := by omega
  have h2 : ¬ m.incarnation = ex.member.incarnation := by omega
  simp [MemberList.upsert_member, hex, h1, h2]

theorem upsert_members_eq_insert (l : MemberList) (m : Member)
    (now seed : Nat) (hex : mapGet m.id l.members = none) :
    (l.upsert_member m now seed).members
      = mapInsert m.id (MemberInfo.new m now) l.members := by
  simp [MemberList.upsert_member, hex]

theorem upsert_member_keeps_local_alive (l : MemberList) (m : Member)
    (now seed : Nat) (lid : MemberId)
    (hst : m.id = lid → m.state = MemberState.Alive)
    (hAlive : ∀ info, mapGet lid l.members = some info →
      info.member.state = MemberState.Alive) :
    ∀ info, mapGet lid (l.upsert_member m now seed).members = some info →
      info.member.state = MemberState.Alive := by
  intro info hinfo
  cases hex : mapGet m.id l.members with
  | none =>
      rw [upsert_members_eq_insert l m now seed hex] at hinfo
      by_cases hid : m.id = lid
      · rw [hid, mapGet_mapInsert_same] at hinfo
        cases hinfo
        simpa [MemberInfo.new] using hst hid
      · rw [mapGet_mapInsert_ne m.id lid _ (fun hc => hid hc.symm)] at hinfo
        exact hAlive info hinfo
  | some ex =>
      rcases Nat.lt_trichotomy ex.member.incarnation m.incarnation
        with h1 | h2 | h3
      · rw [upsert_members_eq_newer l m now seed ex hex h1] at hinfo
        by_cases hid : m.id = lid
        · rw [hid, mapGet_mapSet_same] at hinfo
          cases hget : mapGet lid l.members with
          | none => rw [hget] at hinfo; cases hinfo
          | some v =>
              rw [hget] at hinfo
              simp only [Option.map] at hinfo
              cases hinfo
              simpa [upsertNewer] using hst hid
        · rw [mapGet_mapSet_ne m.id lid _ (fun hc => hid hc.symm)] at hinfo
          exact hAlive info hinfo
      · rw [upsert_members_eq_equal l m now seed ex hex h2.symm] at hinfo
        by_cases hid : m.id = lid
        · rw [hid, mapGet_mapSet_same] at hinfo
          cases hget : mapGet lid l.members with
          | none => rw [hget] at hinfo; cases hinfo
          | some v =>
              rw [hget] at hinfo
              simp only [Option.map] at hinfo
              cases hinfo
              by_cases hss : m.state = v.member.state
              · simp only [upsertEqual, hss, if_pos]
                rw [← hss]
                exact hst hid
              · simp only [upsertEqual, hss, if_neg, if_false]
                simpa using hst hid
        · rw [mapGet_mapSet_ne m.id lid _ (fun hc => hid hc.symm)] at hinfo
          exact hAlive info hinfo
      · rw [upsert_eq_less l m now seed ex hex h3] at hinfo
        exact hAlive info hinfo

theorem increment_keeps_local_alive (l : MemberList) (lid : MemberId)
    (hlid : l.local_member.id = lid)
    (hAlive : ∀ info, mapGet lid l.members = some info →
      info.member.state = MemberState.Alive) :
    ∀ info, mapGet lid l.increment_incarnation.members = some info →
      info.member.state = MemberState.Alive := by
  intro info hinfo
  unfold MemberList.increment_incarnation at hinfo
  simp only at hinfo
  rw [hlid, mapGet_mapSet_same] at hinfo
  cases hget : mapGet lid l.members with
  | none => rw [hget] at hinfo; cases hinfo
  | some v =>
      rw [hget] at hinfo
      simp only [Option.map] at hinfo
      cases hinfo
      simpa using hAlive v hget

/-- Combined per-fold invariant for process_member_updates. -/
theorem processStep_fold_props (lid : MemberId) (now seed : Nat) :
    ∀ (updates : List MemberUpdate) (acc : MemberList),
      acc.local_member.id = lid →
      (updates.foldl (processStep lid now seed) acc).local_member.id = lid ∧
      (updates.foldl (processStep lid now seed) acc).local_member.state
        = acc.local_member.state ∧
      (updates.foldl (processStep lid now seed) acc).local_member.incarnation
        = acc.local_member.incarnation + updates.countP (isSelfAccusation lid) ∧
      ((∀ info, mapGet lid acc.members = some info →
          info.member.state = MemberState.Alive) →
        ∀ info, mapGet lid
            (updates.foldl (processStep lid now seed) acc).members = some info →
          info.member.state = MemberState.Alive) := by
  intro updates
  induction updates with
  | nil =>
      intro acc hid
      refine ⟨hid, rfl, by simp, fun h => h⟩
  | cons u rest ih =>
      intro acc hid
      by_cases hacc : u.member_id = lid ∧
          (u.state = MemberState.Suspect ∨ u.state = MemberState.Dead)
      · have hstep : processStep lid now seed acc u
            = acc.increment_incarnation := by
          simp [processStep, hacc]
        have hid2 : acc.increment_incarnation.local_member.id = lid := by
          simp [MemberList.increment_incarnation, hid]
        obtain ⟨p1, p2, p3, p4⟩ := ih acc.increment_incarnation hid2
        rw [List.foldl_cons, hstep]
        refine ⟨p1, ?_, ?_, ?_⟩
        · rw [p2]
          simp [MemberList.increment_incarnation]
        · rw [p3]
          simp only [MemberList.increment_incarnation]
          rw [List.countP_cons]
          simp [isSelfAccusation, hacc]
          omega
        · intro hAlive
          exact p4 (increment_keeps_local_alive acc lid hid hAlive)
      · have hstep : processStep lid now seed acc u
            = acc.upsert_member
                { id := u.member_id, addr := u.addr, state := u.state,
                  incarnation := u.incarnation } now seed := by
          simp [processStep, hacc]
        have hloc := upsert_member_local_member acc
          { id := u.member_id, addr := u.addr, state := u.state,
            incarnation := u.incarnation } now seed
        have hid2 : (acc.upsert_member
            { id := u.member_id, addr := u.addr, state := u.state,
              incarnation := u.incarnation } now seed).local_member.id = lid := by
          rw [hloc, hid]
        obtain ⟨p1, p2, p3, p4⟩ := ih _ hid2
        rw [List.foldl_cons, hstep]
        refine ⟨p1, ?_, ?_, ?_⟩
        · rw [p2, hloc]
        · rw [p3, hloc]
          rw [List.countP_cons]
          simp [isSelfAccusation, hacc]
        · intro hAlive
          apply p4
          apply upsert_member_keeps_local_alive acc _ now seed lid _ hAlive
          intro hidm
          simp only at hidm
          by_cases hsus : u.state = MemberState.Suspect
          · exact absurd ⟨hidm, Or.inl hsus⟩ hacc
          · by_cases hdead : u.state = MemberState.Dead
            · exact absurd ⟨hidm, Or.inr hdead⟩ hacc
            · cases hu : u.state with
              | Alive => rfl
              | Suspect => exact absurd hu hsus
              | Dead => exact absurd hu hdead

/-- C2: every Suspect/Dead update naming the local id strictly increases
the local incarnation (one increment per accusation) without being applied
to the member list (processing a single accusation coincides with
increment_incarnation), and after processing any batch the local member is
still Alive - both the local_member record and its map entry. -/
theorem process_member_updates_self_preservation (l : MemberList)
    (updates : List MemberUpdate) (now seed : Nat)
    (hAliveLocal : l.local_member.state = MemberState.Alive)
    (hAlive : ∀ info, mapGet l.local_member.id l.members = some info →
      info.member.state = MemberState.Alive) :
    ((process_member_updates l updates now seed).local_member.incarnation
      = l.local_member.incarnation
        + updates.countP (isSelfAccusation l.local_member.id)) ∧
    (0 < updates.countP (isSelfAccusation l.local_member.id) →
      l.local_member.incarnation
        < (process_member_updates l updates now seed).local_member.incarnation) ∧
    ((process_member_updates l updates now seed).local_member.state
      = MemberState.Alive) ∧
    (∀ info, mapGet l.local_member.id
        (process_member_updates l updates now seed).members = some info →
      info.member.state = MemberState.Alive) ∧
    (∀ u, isSelfAccusation l.local_member.id u = true →
      process_member_updates l [u] now seed = l.increment_incarnation) := by
  obtain ⟨p1, p2, p3, p4⟩ :=
    processStep_fold_props l.local_member.id now seed updates l rfl
  unfold process_member_updates
  refine ⟨p3, ?_, ?_, p4 hAlive, ?_⟩
  · intro hpos
    rw [p3]
    omega
  · rw [p2, hAliveLocal]
  · intro u hu
    simp only [List.foldl_cons, List.foldl_nil]
    unfold isSelfAccusation at hu
    split_ifs at hu with hcond
    simp [processStep, hcond]

/-- C2 witness: a concrete Dead accusation about the local id bumps the
incarnation from 0 to 1 and leaves the local entry Alive. -/
theorem process_member_updates_self_preservation_witness :
    (process_member_updates fixList
        [{ member_id := fixLoc.id, addr := SocketAddr.v4 1 1,
           state := MemberState.Dead, incarnation := 0 }] 7 0).local_member.incarnation
      = fixList.local_member.incarnation + 1 :=
  (process_member_updates_self_preservation fixList
      [{ member_id := fixLoc.id, addr := SocketAddr.v4 1 1,
         state := MemberState.Dead, incarnation := 0 }] 7 0
      (by decide) (by decide)).1

/-!  C7: rotation fairness of get_random_alive_member. -/

/-- Element of the rotation order at cyclic position c. -/
def posId (o : List MemberId) (c : Nat) : MemberId :=
  o.getD (c % o.length) default

/-- Cyclic window of the rotation order: the w elements at positions
c, c+1, ..., c+w-1. -/
def window (o : List MemberId) (c w : Nat) : List MemberId :=
  (List.range w).map (fun k => posId o (c + k))

/-- Boolean test for a non-local id. -/
def notLocalB (lid id : MemberId) : Bool :=
  if id = lid then false else true

/-- Specification-level trace of n rotation calls starting at cursor c:
each call returns the element at the cursor unless it is the local id, in
which case the next element is returned and the cursor skips past both. -/
def specN (o : List MemberId) (lid : MemberId) : Nat → Nat → List MemberId
  | 0, _ => []
  | Nat.succ n, c =>
      if posId o c = lid then posId o (c + 1) :: specN o lid n (c + 2)
      else posId o c :: specN o lid n (c + 1)

/-- Iterated calls to get_random_alive_member, collecting the results. -/
def callN : MemberList → Nat → List (Option Member) × MemberList
  | l, 0 => ([], l)
  | l, Nat.succ n =>
      match l.get_random_alive_member with
      | (res, l2) =>
          match callN l2 n with
          | (results, l3) => (res :: results, l3)

theorem grLoop_succ (lid : MemberId) (mem : List (MemberId × MemberInfo))
    (o : List MemberId) (c fuel : Nat) :
    grLoop lid mem o c (fuel + 1)
      = (match mapGet (posId o c) mem with
         | some info =>
             if info.member.state = MemberState.Alive ∧ info.member.id ≠ lid
             then (some info.member, c + 1)
             else grLoop lid mem o (c + 1) fuel
         | none => grLoop lid mem o (c + 1) fuel) := rfl

theorem grLoop_hit (lid : MemberId) (mem : List (MemberId × MemberInfo))
    (o : List MemberId) (c fuel : Nat) (info : MemberInfo)
    (hget : mapGet (posId o c) mem = some info)
    (hAlv : info.member.state = MemberState.Alive)
    (hidne : info.member.id ≠ lid) :
    grLoop lid mem o c (fuel + 1) = (some info.member, c + 1) := by
  rw [grLoop_succ, hget]
  simp [hAlv, hidne]

theorem grLoop_skip (lid : MemberId) (mem : List (MemberId × MemberInfo))
    (o : List MemberId) (c fuel : Nat)
    (hskip : ∀ info, mapGet (posId o c) mem = some info →
      ¬(info.member.state = MemberState.Alive ∧ info.member.id ≠ lid)) :
    grLoop lid mem o c (fuel + 1) = grLoop lid mem o (c + 1) fuel := by
  rw [grLoop_succ]
  cases hg : mapGet (posId o c) mem with
  | none => rfl
  | some info => simp [hskip info hg]

theorem get_random_eq (l : MemberList) (hem : l.order ≠ []) :
    l.get_random_alive_member
      = ((grLoop l.local_member.id l.members l.order l.cursor
            l.order.length).1,
         { l with cursor := (grLoop l.local_member.id l.members l.order
            l.cursor l.order.length).2 }) := by
  unfold MemberList.get_random_alive_member
  rw [if_neg (by simpa [List.isEmpty_iff] using hem)]

theorem posId_mem (o : List MemberId) (c : Nat) (h : 0 < o.length) :
    posId o c ∈ o := by
  unfold posId
  rw [List.getD_eq_getElem _ _ (Nat.mod_lt _ h)]
  exact List.getElem_mem _

theorem posId_shift_ne (o : List MemberId) (lid : MemberId) (hnd : o.Nodup)
    (c j : Nat) (hc : posId o c = lid) (hj1 : 1 ≤ j) (hj2 : j < o.length) :
    posId o (c + j) ≠ lid := by
  intro hcj
  have h0 : 0 < o.length := by omega
  have hlt1 : c % o.length < o.length := Nat.mod_lt _ h0
  have hlt2 : (c + j) % o.length < o.length := Nat.mod_lt _ h0
  have he1 : o.get ⟨c % o.length, hlt1⟩ = lid := by
    rw [List.get_eq_getElem, ← List.getD_eq_getElem o default hlt1]
    exact hc
  have he2 : o.get ⟨(c + j) % o.length, hlt2⟩ = lid := by
    rw [List.get_eq_getElem, ← List.getD_eq_getElem o default hlt2]
    exact hcj
  have hij : (⟨c % o.length, hlt1⟩ : Fin o.length)
      = ⟨(c + j) % o.length, hlt2⟩ :=
    (List.Nodup.get_inj_iff hnd).mp (by rw [he1, he2])
  have hmodeq : Nat.ModEq o.length (c + 0) (c + j) := by
    unfold Nat.ModEq
    simpa using congrArg Fin.val hij
  have hdvd : o.length ∣ j :=
    (Nat.modEq_zero_iff_dvd).mp (Nat.ModEq.add_left_cancel' c hmodeq).symm
  have := Nat.le_of_dvd (by omega) hdvd
  omega

/-- Simulation of n rotation calls: with a nodup order containing the
local id, every other order entry mapped to an Alive member under its own
id, and at least one peer, the n calls from any cursor succeed and return
precisely the ids of the specification trace specN. -/
theorem callN_ids (l : MemberList)
    (hnd : l.order.Nodup)
    (hpeers : ∀ id ∈ l.order, id ≠ l.local_member.id →
      ∃ info, mapGet id l.members = some info ∧
        info.member.state = MemberState.Alive ∧ info.member.id = id)
    (hlocEntry : ∀ info, mapGet l.local_member.id l.members = some info →
      info.member.id = l.local_member.id)
    (hL : 2 ≤ l.order.length) :
    ∀ (n : Nat) (c : Nat),
      ∃ ms : List Member,
        (callN { l with cursor := c } n).1 = ms.map some ∧
        ms.map Member.id = specN l.order l.local_member.id n c := by
  intro n
  induction n with
  | zero => intro c; exact ⟨[], rfl, rfl⟩
  | succ n ih =>
      intro c
      have h0 : 0 < l.order.length := by omega
      have hem : l.order ≠ [] := by
        intro hx
        rw [hx] at h0
        simp at h0
      by_cases hB : posId l.order c = l.local_member.id
      · -- the cursor points at the local id: skip it, return the next slot
        have hnext : posId l.order (c + 1) ≠ l.local_member.id :=
          posId_shift_ne l.order l.local_member.id hnd c 1 hB (by omega)
            (by omega)
        obtain ⟨info, hget, hAlv, hid⟩ :=
          hpeers (posId l.order (c + 1)) (posId_mem l.order (c + 1) h0) hnext
        have hidne : info.member.id ≠ l.local_member.id := by
          rw [hid]; exact hnext
        obtain ⟨f2, hf2⟩ : ∃ f2, l.order.length = f2 + 2 :=
          ⟨l.order.length - 2, by omega⟩
        have hloop : grLoop l.local_member.id l.members l.order c
            l.order.length = (some info.member, c + 2) := by
          rw [hf2]
          rw [show f2 + 2 = (f2 + 1) + 1 from rfl]
          rw [grLoop_skip l.local_member.id l.members l.order c (f2 + 1)
            (by
              intro info2 hget2
              rw [hB] at hget2
              have := hlocEntry info2 hget2
              simp [this])]
          exact grLoop_hit l.local_member.id l.members l.order (c + 1) f2
            info hget hAlv hidne
        have hcall : MemberList.get_random_alive_member
            { l with cursor := c }
            = (some info.member, { l with cursor := c + 2 }) := by
          rw [get_random_eq { l with cursor := c } hem]
          rw [show ({ l with cursor := c } : MemberList).cursor = c from rfl]
          rw [show ({ l with cursor := c } : MemberList).order = l.order
            from rfl]
          rw [show ({ l with cursor := c } : MemberList).members = l.members
            from rfl]
          rw [show ({ l with cursor := c } : MemberList).local_member
            = l.local_member from rfl]
          rw [hloop]
        obtain ⟨ms2, hms1, hms2⟩ := ih (c + 2)
        refine ⟨info.member :: ms2, ?_, ?_⟩
        · show (callN { l with cursor := c } (n + 1)).1 = _
          unfold callN
          rw [hcall]
          simp only [List.map_cons]
          rw [← hms1]
        · simp only [List.map_cons, hms2, specN, if_pos hB, hid]
      · -- the cursor points at a peer: return it directly
        obtain ⟨info, hget, hAlv, hid⟩ :=
          hpeers (posId l.order c) (posId_mem l.order c h0) hB
        have hidne : info.member.id ≠ l.local_member.id := by
          rw [hid]; exact hB
        obtain ⟨f1, hf1⟩ : ∃ f1, l.order.length = f1 + 1 :=
          ⟨l.order.length - 1, by omega⟩
        have hloop : grLoop l.local_member.id l.members l.order c
            l.order.length = (some info.member, c + 1) := by
          rw [hf1]
          exact grLoop_hit l.local_member.id l.members l.order c f1
            info hget hAlv hidne
        have hcall : MemberList.get_random_alive_member
            { l with cursor := c }
            = (some info.member, { l with cursor := c + 1 }) := by
          rw [get_random_eq { l with cursor := c } hem]
          rw [show ({ l with cursor := c } : MemberList).cursor = c from rfl]
          rw [show ({ l with cursor := c } : MemberList).order = l.order
            from rfl]
          rw [show ({ l with cursor := c } : MemberList).members = l.members
            from rfl]
          rw [show ({ l with cursor := c } : MemberList).local_member
            = l.local_member from rfl]
          rw [hloop]
        obtain ⟨ms2, hms1, hms2⟩ := ih (c + 1)
        refine ⟨info.member :: ms2, ?_, ?_⟩
        · show (callN { l with cursor := c } (n + 1)).1 = _
          unfold callN
          rw [hcall]
          simp only [List.map_cons]
          rw [← hms1]
        · simp only [List.map_cons, hms2, specN, if_neg hB, hid]

theorem window_cons (o : List MemberId) (c w : Nat) :
    window o c (w + 1) = posId o c :: window o (c + 1) w := by
  unfold window
  rw [List.range_succ_eq_map]
  simp only [List.map_cons, List.map_map, Nat.add_zero]
  congr 1
  apply List.map_congr_left
  intro k _
  simp only [Function.comp]
  congr 1
  omega

theorem window_snoc (o : List MemberId) (c w : Nat) :
    window o c (w + 1) = window o c w ++ [posId o (c + w)] := by
  unfold window
  rw [List.range_succ]
  simp

theorem window_length (o : List MemberId) (c w : Nat) :
    (window o c w).length = w := by
  simp [window]

theorem mem_window (o : List MemberId) (c w : Nat) (x : MemberId) :
    x ∈ window o c w → ∃ k, k < w ∧ x = posId o (c + k) := by
  intro hx
  unfold window at hx
  obtain ⟨k, hk, hxk⟩ := List.mem_map.mp hx
  exact ⟨k, List.mem_range.mp hk, hxk.symm⟩

/-- The specification trace over n calls equals the first n non-local
entries of the cyclic window of n+1 entries at the cursor. -/
theorem specN_take (o : List MemberId) (lid : MemberId) (hnd : o.Nodup)
    (hL : 2 ≤ o.length) :
    ∀ (n c : Nat), n + 1 ≤ o.length →
      specN o lid n c
        = List.take n (List.filter (notLocalB lid) (window o c (n + 1))) := by
  intro n
  induction n with
  | zero => intro c _; rfl
  | succ n ih =>
      intro c hn
      by_cases hB : posId o c = lid
      · have h1 : posId o (c + 1) ≠ lid :=
          posId_shift_ne o lid hnd c 1 hB (by omega) (by omega)
        have hBfalse : notLocalB lid (posId o c) = false := by
          simp [notLocalB, hB]
        have h1true : notLocalB lid (posId o (c + 1)) = true := by
          simp [notLocalB, h1]
        rw [window_cons o c (n + 1)]
        rw [List.filter_cons_of_neg (by simp [hBfalse])]
        rw [window_cons o (c + 1) n]
        rw [List.filter_cons_of_pos (by simp [h1true])]
        rw [List.take_succ_cons]
        rw [specN, if_pos hB]
        congr 1
        rw [ih (c + 2) (by omega)]
        have hall : ∀ x ∈ window o (c + 2) n, notLocalB lid x = true := by
          intro x hx
          obtain ⟨k, hk, hxk⟩ := mem_window o (c + 2) n x hx
          have hne2 : posId o (c + (2 + k)) ≠ lid :=
            posId_shift_ne o lid hnd c (2 + k) hB (by omega) (by omega)
          rw [hxk, show c + 2 + k = c + (2 + k) from by omega]
          simp [notLocalB, hne2]
        have hfeq : List.filter (notLocalB lid) (window o (c + 2) n)
            = window o (c + 2) n := List.filter_eq_self.mpr hall
        rw [window_snoc o (c + 2) n, List.filter_append, hfeq]
        rw [List.take_left' (window_length o (c + 2) n)]
        rw [List.take_of_length_le (le_of_eq (window_length o (c + 2) n))]
      · have hBtrue : notLocalB lid (posId o c) = true := by
          simp [notLocalB, hB]
        rw [window_cons o c (n + 1)]
        rw [List.filter_cons_of_pos (by simp [hBtrue])]
        rw [List.take_succ_cons]
        rw [specN, if_neg hB]
        rw [ih (c + 1) (by omega)]

theorem window_rotate (o : List MemberId) (c : Nat) (h : 0 < o.length) :
    window o c o.length = o.rotate (c % o.length) := by
  apply List.ext_getElem
  · rw [window_length, List.length_rotate]
  · intro i h1 h2
    rw [window_length] at h1
    unfold window
    rw [List.getElem_map, List.getElem_range, List.getElem_rotate]
    unfold posId
    rw [List.getD_eq_getElem _ _ (Nat.mod_lt _ h)]
    congr 1
    rw [Nat.add_mod_mod, Nat.add_comm]

theorem filter_notLocal_length (o : List MemberId) (lid : MemberId)
    (hnd : o.Nodup) (hmem : lid ∈ o) :
    (o.filter (notLocalB lid)).length + 1 = o.length := by
  induction o with
  | nil => cases hmem
  | cons a rest ih =>
      by_cases ha : a = lid
      · have hnotin : lid ∉ rest := by
          rw [← ha]
          exact (List.nodup_cons.mp hnd).1
        have hrest : List.filter (notLocalB lid) rest = rest := by
          apply List.filter_eq_self.mpr
          intro x hx
          have : x ≠ lid := fun hc => hnotin (hc ▸ hx)
          simp [notLocalB, this]
        rw [List.filter_cons_of_neg (by simp [notLocalB, ha])]
        rw [hrest]
        simp
      · have hmem2 : lid ∈ rest := by
          rcases List.mem_cons.mp hmem with h | h
          · exact absurd h.symm ha
          · exact h
        have hnd2 : rest.Nodup := (List.nodup_cons.mp hnd).2
        rw [List.filter_cons_of_pos (by simp [notLocalB, ha])]
        simp only [List.length_cons]
        rw [← ih hnd2 hmem2]

/-- C7: with a stable membership whose non-local entries are all Alive,
N = (number of non-local peers) consecutive calls to
get_random_alive_member all succeed and return each non-local peer exactly
once (the returned ids are a permutation of the non-local rotation order),
from any starting cursor position. -/
theorem rotation_fairness (l : MemberList)
    (hnd : l.order.Nodup)
    (hmem : l.local_member.id ∈ l.order)
    (hpeers : ∀ id ∈ l.order, id ≠ l.local_member.id →
      ∃ info, mapGet id l.members = some info ∧
        info.member.state = MemberState.Alive ∧ info.member.id = id)
    (hlocEntry : ∀ info, mapGet l.local_member.id l.members = some info →
      info.member.id = l.local_member.id) :
    ∃ ms : List Member,
      (callN l (l.order.length - 1)).1 = ms.map some ∧
      List.Perm (ms.map Member.id)
        (l.order.filter (notLocalB l.local_member.id)) := by
  have h0 : 0 < l.order.length := List.length_pos.mpr
    (fun hx => by rw [hx] at hmem; cases hmem)
  by_cases hL : 2 ≤ l.order.length
  · have hcall := callN_ids l hnd hpeers hlocEntry hL
      (l.order.length - 1) l.cursor
    have letaeq : ({ l with cursor := l.cursor } : MemberList) = l := rfl
    rw [letaeq] at hcall
    obtain ⟨ms, hms1, hms2⟩ := hcall
    refine ⟨ms, hms1, ?_⟩
    rw [hms2]
    rw [specN_take l.order l.local_member.id hnd hL (l.order.length - 1)
      l.cursor (by omega)]
    rw [show l.order.length - 1 + 1 = l.order.length from by omega]
    rw [window_rotate l.order l.cursor h0]
    have hperm : List.Perm (l.order.rotate (l.cursor % l.order.length))
        l.order := List.rotate_perm _ _
    have hpermf := hperm.filter (notLocalB l.local_member.id)
    have hlen : (List.filter (notLocalB l.local_member.id)
        (l.order.rotate (l.cursor % l.order.length))).length
        = l.order.length - 1 := by
      rw [hpermf.length_eq]
      have := filter_notLocal_length l.order l.local_member.id hnd hmem
      omega
    rw [List.take_of_length_le (le_of_eq hlen)]
    exact hpermf
  · have hL1 : l.order.length = 1 := by omega
    obtain ⟨a, ha⟩ := List.length_eq_one.mp hL1
    have halid : a = l.local_member.id := by
      rw [ha] at hmem
      rcases List.mem_cons.mp hmem with h | h
      · exact h.symm
      · cases h
    refine ⟨[], ?_, ?_⟩
    · rw [hL1]
      rfl
    · rw [ha, halid]
      simp [notLocalB]

/-- Concrete Alive peer used by the rotation witness. -/
def fixAliveC : Member :=
  { id := { raw := "c" }, addr := SocketAddr.v4 3 3,
    state := MemberState.Alive, incarnation := 0 }

/-- Concrete two-entry member list (local plus one Alive peer) with a
nonzero starting cursor. -/
def fixRotList : MemberList :=
  { local_member := fixLoc,
    members := [(fixLoc.id, MemberInfo.new fixLoc 0),
                (fixAliveC.id, MemberInfo.new fixAliveC 0)],
    order := [fixAliveC.id, fixLoc.id], index := [], suspect_timeout := 5,
    cursor := 3 }

/-- C7 witness: the fairness theorem applied to the concrete list. -/
theorem rotation_fairness_witness :
    ∃ ms : List Member,
      (callN fixRotList (fixRotList.order.length - 1)).1 = ms.map some ∧
      List.Perm (ms.map Member.id)
        (fixRotList.order.filter (notLocalB fixRotList.local_member.id)) :=
  rotation_fairness fixRotList (by decide) (by decide)
    (by
      intro id hid hne
      have hcases : id = fixAliveC.id ∨ id = fixLoc.id := by
        simpa [fixRotList] using hid
      rcases hcases with h | h
      · subst h
        exact ⟨MemberInfo.new fixAliveC 0, by decide, by decide, by decide⟩
      · exact absurd h hne)
    (by
      intro info h
      have h2 : some (MemberInfo.new fixLoc 0) = some info := by
        rw [← h]
        rfl
      cases h2
      rfl)

end Flux
